import Mathlib

/-!
Verification development for the pic-grabber page-scanning engine.

This file gives a shallow embedding of the scanner core of the repository:

* `ImageUtils` (src/js/utils.js and the variant in src/unnamed/part_007):
  `isBase64Image`, `generateFileName`, `getAllPossibleSources`,
  `isPossibleImageSource`, `getCanvasImage`.
* `ImageDownloader` (src/js/content.js, class ImageDownloader):
  `processElement`, `deepScanElement` (flattened to a list of elements),
  `processComments`, the iframe and style-tag phases of `scanAllImages`,
  and the incremental (mutation-observer) path, which feeds added or
  attribute-changed elements back into `processElement`.
* `findBase64Images` (src/js/content.js lines 440-473, identical in
  src/unnamed/part_002 lines 310-343).

Strings are modelled by `String` but all parsing is done on `String.data`
(`List Char`), which matches JavaScript's sequence-of-code-points view for
the ASCII data handled here.  JavaScript `Set` objects are modelled by
lists used as sets (membership-gated insertion), and the `WeakSet` of
visited DOM nodes by a list of element identities (`Nat` ids).  A thrown
JavaScript exception is modelled by an error flag that propagates exactly
where the source has no `try`/`catch`; side effects (set insertions,
emitted events) performed before a throw persist, as in JavaScript.

Regular expressions from the source are implemented as explicit scanning
functions; each one's doc comment names the regex it implements.
-/

/-! ## Character-list helpers (JS string primitives) -/

/-- Lower-case every character (JS `toLowerCase` on the ASCII data used here). -/
def lowerCL (l : List Char) : List Char := l.map Char.toLower

/-- Strip an expected prefix, returning the remainder (used to implement
anchored regex literals). -/
def stripPrefixCL : List Char → List Char → Option (List Char)
  | [], s => some s
  | _, [] => none
  | p :: ps, c :: cs => if c = p then stripPrefixCL ps cs else none

/-- JS `String.prototype.trim` on the char list. -/
def jsTrimCL (l : List Char) : List Char :=
  ((l.dropWhile Char.isWhitespace).reverse.dropWhile Char.isWhitespace).reverse

/-- JS `String.prototype.trim`. -/
def jsTrim (s : String) : String := String.mk (jsTrimCL s.data)

/-- JS `s.startsWith(p)` (case sensitive). -/
def jsStartsWith (s p : String) : Bool := p.data.isPrefixOf s.data

/-- JS `s.match(/^p/i)` as a Bool, for a lower-case pattern `p`. -/
def jsStartsWithCI (s p : String) : Bool := p.data.isPrefixOf (lowerCL s.data)

/-- Case-insensitive prefix test on char lists (pattern given lower-case). -/
def ciIsPrefixOf (p s : List Char) : Bool := p.isPrefixOf (lowerCL s)

/-- JS `str.split(sep)` for a one-character separator; always returns at
least one (possibly empty) segment, like JavaScript. -/
def splitOnChar (sep : Char) : List Char → List (List Char)
  | [] => [[]]
  | x :: xs =>
    let r := splitOnChar sep xs
    if x = sep then [] :: r
    else
      match r with
      | h :: t => (x :: h) :: t
      | [] => [[x]]

/-- JS `Set.prototype.add`: insertion-ordered, membership-gated. -/
def addUnique (l : List String) (s : String) : List String :=
  if s ∈ l then l else l ++ [s]

/-! ## Image-extension suffix tests -/

/-- Extension alternation of the short lists used by
`getAllPossibleSources`, `isPossibleImageSource`, the comment scanner and
the style-tag scanner: `jpg|jpeg|png|gif|webp|svg|avif`. -/
def extList7 : List String := ["jpg", "jpeg", "png", "gif", "webp", "svg", "avif"]

/-- Extension alternation of `generateFileName`
(`jpg|jpeg|png|gif|webp|svg|avif|bmp|ico|tiff|heic|jfif`). -/
def extList12 : List String :=
  ["jpg", "jpeg", "png", "gif", "webp", "svg", "avif",
   "bmp", "ico", "tiff", "heic", "jfif"]

/-- JS `s.match(/\.(e1|e2|...)$/i)` as a Bool: a case-insensitive
`.extension` suffix from the given list. -/
def hasExtSuffix (exts : List String) (l : List Char) : Bool :=
  exts.any (fun e => ('.' :: e.data).isSuffixOf (lowerCL l))

/-- The short image-extension suffix test `/\.(jpg|jpeg|png|gif|webp|svg|avif)$/i`. -/
def hasShortImageExt (s : String) : Bool := hasExtSuffix extList7 s.data

/-- The long image-extension suffix test used by `generateFileName`. -/
def hasLongImageExt (l : List Char) : Bool := hasExtSuffix extList12 l

/-! ## Base64 classifier (ImageUtils.isBase64Image, utils.js lines 34-43) -/

/-- The regex character class `[a-zA-Z0-9-+.]` (MIME subtype chars). -/
def subtypeChar (c : Char) : Bool :=
  c.isAlpha || c.isDigit || c = '-' || c = '+' || c = '.'

/-- The regex character class `[A-Za-z0-9+/=]` (base64 body chars). -/
def b64Char (c : Char) : Bool :=
  c.isAlpha || c.isDigit || c = '+' || c = '/' || c = '='

/-- Core of `isBase64Image`: the anchored regex
`/^data:image\/[a-zA-Z0-9-+.]+;base64,[A-Za-z0-9+/=]+$/`.
Since `;` is not a subtype char, the greedy subtype run is forced and the
scan below is equivalent to the backtracking regex.  The preceding
`startsWith('data:image/')` guard of the source is subsumed by the
anchored prefix. -/
def isBase64ImageCore (s : List Char) : Bool :=
  match stripPrefixCL "data:image/".data s with
  | none => false
  | some rest =>
    match stripPrefixCL ";base64,".data (rest.dropWhile subtypeChar) with
    | none => false
    | some body =>
      !(rest.takeWhile subtypeChar).isEmpty && !body.isEmpty && body.all b64Char

namespace ImageUtils

/-- `ImageUtils.isBase64Image` (utils.js lines 34-43): strict check that a
string is a base64-encoded `data:image` URI. -/
def isBase64Image (s : String) : Bool := isBase64ImageCore s.data

end ImageUtils

/-! ## Filename synthesis (ImageUtils.generateFileName, utils.js lines 7-27) -/

/-- The template `image_${Date.now()}.${extension}`; the clock value is an
explicit parameter so determinism claims can fix it. -/
def synthName (now : Nat) (ext : String) : String :=
  "image_" ++ Nat.repr now ++ "." ++ ext

/-- The capture of `/^data:image\/([a-zA-Z0-9-+.]+);base64,/` (a prefix
match, not anchored at the end).  `;` is not a subtype char, so the greedy
capture is forced as below. -/
def dataExtMatch (s : List Char) : Option (List Char) :=
  match stripPrefixCL "data:image/".data s with
  | none => none
  | some rest =>
    let sub := rest.takeWhile subtypeChar
    if sub.isEmpty then none
    else if (stripPrefixCL ";base64,".data (rest.dropWhile subtypeChar)).isSome then
      some sub
    else none

/-- Modelled platform API: `new URL(url).pathname` as exercised by
`generateFileName`.  A parse failure (no valid `scheme:` head) models the
constructor throwing.  Hierarchical URLs (`scheme://authority/path`) get
the path component up to `?` or `#`, defaulting to `/`; other URLs get the
opaque scheme-specific part up to `?` or `#`. -/
def urlPathnameCore (s : List Char) : Option (List Char) :=
  let pre := s.takeWhile (fun c => c ≠ ':')
  match s.dropWhile (fun c => c ≠ ':') with
  | ':' :: rest =>
    let schemeOk :=
      match pre with
      | [] => false
      | c :: cs => c.isAlpha && cs.all (fun ch => ch.isAlphanum || ch = '+' || ch = '-' || ch = '.')
    if schemeOk then
      match rest with
      | '/' :: '/' :: r2 =>
        let r3 := r2.dropWhile (fun c => c ≠ '/' && c ≠ '?' && c ≠ '#')
        let path := r3.takeWhile (fun c => c ≠ '?' && c ≠ '#')
        if path.isEmpty then some ['/'] else some path
      | _ => some (rest.takeWhile (fun c => c ≠ '?' && c ≠ '#'))
    else none
  | _ => none

namespace ImageUtils

/-- `ImageUtils.generateFileName` (utils.js lines 7-27).  `now` stands for
`Date.now()`.  For `data:image...` inputs the declared subtype is used only
when the base64-form prefix regex matches, else `png`; for other URLs the
last path segment is kept only when it carries a recognized image
extension, and a URL-constructor throw falls back to the synthesized name. -/
def generateFileName (now : Nat) (url : String) : String :=
  if jsStartsWith url "data:image" then
    match dataExtMatch url.data with
    | some sub => synthName now (String.mk sub)
    | none => synthName now "png"
  else
    match urlPathnameCore url.data with
    | none => synthName now "png"
    | some path =>
      let fileName := (splitOnChar '/' path).getLastD []
      if hasLongImageExt fileName then String.mk fileName else synthName now "png"

end ImageUtils

/-! ## CSS url(...) scanners -/

/-- Filter dropping quote characters: JS `.replace(/["']/g, "")`. -/
def isQuoteChar (c : Char) : Bool := c = '"' || c = '\''

/-- The clean-up applied to every `url(...)` match in the source:
`url.slice(4, -1).replace(/["']/g, "")`. -/
def cleanUrl (m : String) : String :=
  String.mk (((m.data.drop 4).dropLast).filter (fun c => !isQuoteChar c))

/-- Lazy body of `/url\("?(.*?["']?)\)/`: the characters up to the first
`)`.  `.` does not match a newline in JS, so a newline before the `)`
fails the match attempt.  Returns the body and the input after the `)`. -/
def lazyToParen : List Char → Option (List Char × List Char)
  | [] => none
  | c :: rest =>
    if c = ')' then some ([], rest)
    else if c = '\n' then none
    else
      match lazyToParen rest with
      | some (b, a) => some (c :: b, a)
      | none => none

/-- Global scan of `/url\("?(.*?["']?)\)/g` (the computed-style matcher of
`ImageDownloader.processElement`, content.js line 212), returning the full
match texts.  The optional quotes are inside the returned span; they are
removed later by `cleanUrl`, so the effective match runs from `url(` to the
first `)`. -/
def urlScan1 : Nat → List Char → List (List Char)
  | 0, _ => []
  | _, [] => []
  | fuel + 1, c :: rest =>
    if "url(".data.isPrefixOf (c :: rest) then
      match lazyToParen ((c :: rest).drop 4) with
      | some (body, after) => ("url(".data ++ body ++ [')']) :: urlScan1 fuel after
      | none => urlScan1 fuel rest
    else urlScan1 fuel rest

/-- All matches of `/url\("?(.*?["']?)\)/g` in `s`. -/
def urlMatches1 (s : String) : List String :=
  (urlScan1 s.data.length s.data).map String.mk

/-- Split a run at its last interior `)` (backtracking step of a greedy
`[^'"]+` followed by `\)`): largest `k ≥ 1` with `run[k] = ')'`, returning
`(run.take k, run.drop (k+1))`. -/
def splitAtLastParen (l : List Char) : Option (List Char × List Char) :=
  let rev := l.reverse
  match rev.dropWhile (fun c => c ≠ ')') with
  | ')' :: revBody =>
    if revBody.isEmpty then none
    else some (revBody.reverse, (rev.takeWhile (fun c => c ≠ ')')).reverse)
  | _ => none

/-- One match attempt of `/url\(['"]?([^'"]+)['"]?\)/` positioned right
after `url(`.  Returns the matched interior (the text `slice(4,-1)` would
keep) and the remaining input.  The greedy `[^'"]+` run is cut back to its
last `)` when no quote-and-paren closes it directly. -/
def match2At (s : List Char) : Option (List Char × List Char) :=
  let q : List Char × List Char :=
    match s with
    | c :: r => if isQuoteChar c then ([c], r) else ([], s)
    | [] => ([], [])
  let body := q.2.takeWhile (fun c => !isQuoteChar c)
  let s2 := q.2.dropWhile (fun c => !isQuoteChar c)
  if body.isEmpty then none
  else
    match s2 with
    | c2 :: ')' :: after => some (q.1 ++ body ++ [c2], after)
    | _ =>
      match splitAtLastParen body with
      | some (b, tail) => some (q.1 ++ b, tail ++ s2)
      | none => none

/-- Global scan of `/url\(['"]?([^'"]+)['"]?\)/g` (the background-image
matcher of `ImageUtils.getAllPossibleSources`, part_007 lines 256 and 264),
returning the full match texts. -/
def urlScan2 : Nat → List Char → List (List Char)
  | 0, _ => []
  | _, [] => []
  | fuel + 1, c :: rest =>
    if "url(".data.isPrefixOf (c :: rest) then
      match match2At ((c :: rest).drop 4) with
      | some (interior, after) =>
        ("url(".data ++ interior ++ [')']) :: urlScan2 fuel after
      | none => urlScan2 fuel rest
    else urlScan2 fuel rest

/-- All matches of `/url\(['"]?([^'"]+)['"]?\)/g` in `s`. -/
def urlMatches2 (s : String) : List String :=
  (urlScan2 s.data.length s.data).map String.mk

/-! ## CDN heuristic (ImageUtils.isPossibleImageSource, part_007 lines 278-284) -/

/-- Whether `p` occurs contiguously anywhere in the list (unanchored regex
literal search). -/
def containsSeq (p : List Char) : List Char → Bool
  | [] => p.isEmpty
  | c :: rest => p.isPrefixOf (c :: rest) || containsSeq p rest

/-- The fallback pattern `/^https?:\/\/[^/]+\/[^?]+\?(.*&)?image/i`:
after scheme, host and path, the query must start with `image` or contain
`&image`. -/
def cdnImagePattern (s : List Char) : Bool :=
  let l := lowerCL s
  let afterScheme :=
    match stripPrefixCL "https://".data l with
    | some r => some r
    | none => stripPrefixCL "http://".data l
  match afterScheme with
  | none => false
  | some r =>
    let host := r.takeWhile (fun c => c ≠ '/')
    if host.isEmpty then false
    else
      match r.dropWhile (fun c => c ≠ '/') with
      | '/' :: r3 =>
        let path := r3.takeWhile (fun c => c ≠ '?')
        if path.isEmpty then false
        else
          match r3.dropWhile (fun c => c ≠ '?') with
          | '?' :: query =>
            "image".data.isPrefixOf query || containsSeq "&image".data query
          | _ => false
      | _ => false

namespace ImageUtils

/-- `ImageUtils.isPossibleImageSource` (part_007 lines 278-284). -/
def isPossibleImageSource (s : String) : Bool :=
  hasShortImageExt s || jsStartsWith s "data:image/" || jsStartsWithCI s "blob:"
    || cdnImagePattern s.data

end ImageUtils

/-! ## Scanner data model -/

deriving instance DecidableEq for Except

/-- One DOM attribute (name, value). -/
structure Attr where
  name : String
  value : String
deriving DecidableEq

/-- A DOM element as seen by the scanner.  `id` is the node identity used
by the `WeakSet` of visited nodes.  `styleBackgroundImage` is the inline
`element.style.backgroundImage` (empty string when unset, i.e. JS-falsy);
the `computed*` fields are the values `window.getComputedStyle` returns for
`backgroundImage`, `content`, `mask` and `webkitMask` (a real engine
returns `"none"` when unset).  `canvasEncode` models
`canvas.toDataURL('image/png')`: `Except.ok dataUrl`, or `Except.error ()`
when the canvas is tainted and the call throws.  It is only consulted for
elements whose `tagName` is `"CANVAS"`. -/
structure Elem where
  id : Nat
  tagName : String
  attrs : List Attr
  styleBackgroundImage : String
  computedBackgroundImage : String
  computedContent : String
  computedMask : String
  computedWebkitMask : String
  canvasEncode : Except Unit String
deriving DecidableEq

/-- The attribute filter of `ImageUtils.getAllPossibleSources` (part_007
lines 247-249): image-extension suffix, `data:image/` prefix, or `blob:`
prefix (case-insensitive).  Note the `imageAttributes` name list declared
just above it in the source is dead code: the loop tests every attribute
by value shape only. -/
def attrQualifies (v : String) : Bool :=
  hasShortImageExt v || jsStartsWith v "data:image/" || jsStartsWithCI v "blob:"

/-- `ImageUtils.getAllPossibleSources` (part_007 lines 234-271): a JS `Set`
built from (1) every attribute whose trimmed value looks like an image
reference, (2) `url(...)` values of the inline `style.backgroundImage`
(when JS-truthy), (3) `url(...)` values of the computed `backgroundImage`
(when not `"none"`), returned in insertion order. -/
def getAllPossibleSources (e : Elem) : List String :=
  let s1 := e.attrs.foldl
    (fun acc a =>
      let v := jsTrim a.value
      if !v.isEmpty && attrQualifies v then addUnique acc v else acc) []
  let s2 :=
    if !e.styleBackgroundImage.isEmpty then
      (urlMatches2 e.styleBackgroundImage).foldl
        (fun acc u => addUnique acc (cleanUrl u)) s1
    else s1
  let s3 :=
    if e.computedBackgroundImage ≠ "none" then
      (urlMatches2 e.computedBackgroundImage).foldl
        (fun acc u => addUnique acc (cleanUrl u)) s2
    else s2
  s3

/-- The scanner's mutable dedupe state: `processedElements` is the
`WeakSet` of visited node identities, `processedSources` the `Set` of
already-emitted source strings. -/
structure ScanState where
  processedElements : List Nat
  processedSources : List String
deriving DecidableEq

/-- Observable events: `clear` models the ledger reset plus
`removeAllButtons` at the start of a full scan; `discovered s` models one
download-button creation / `processedSources` insertion for source `s`. -/
inductive Event where
  | clear : Event
  | discovered : String → Event
deriving DecidableEq

/-- Result of a scanner step: the state and events produced so far, and
whether an uncaught JavaScript exception escaped (side effects before the
throw persist, as in JS). -/
structure StepResult where
  st : ScanState
  evs : List Event
  err : Bool
deriving DecidableEq

/-- The ubiquitous source pattern
`if (!this.processedSources.has(s)) { this.processedSources.add(s); <emit> }`. -/
def tryEmit (st : ScanState) (s : String) : ScanState × List Event :=
  if s ∈ st.processedSources then (st, [])
  else ({ st with processedSources := s :: st.processedSources }, [Event.discovered s])

/-- A for-loop over `xs` threading state and concatenating events. -/
def foldEmit (step : ScanState → α → ScanState × List Event) :
    ScanState → List α → ScanState × List Event
  | st, [] => (st, [])
  | st, x :: xs =>
    let r := step st x
    let r2 := foldEmit step r.1 xs
    (r2.1, r.2 ++ r2.2)

/-- A for-loop with `await`ed steps whose exceptions abort the loop
(events and state mutations already performed persist). -/
def foldEmitE (step : ScanState → α → StepResult) :
    ScanState → List α → StepResult
  | st, [] => ⟨st, [], false⟩
  | st, x :: xs =>
    let r := step st x
    if r.err then ⟨r.st, r.evs, true⟩
    else
      let r2 := foldEmitE step r.st xs
      ⟨r2.st, r.evs ++ r2.evs, r2.err⟩

/-- A sequence of independently-fired async steps: an exception in one
(an unhandled rejection) does not stop the following ones.  Used for the
mutation-observer callbacks of the incremental path. -/
def foldEmitK (step : ScanState → α → StepResult) :
    ScanState → List α → StepResult
  | st, [] => ⟨st, [], false⟩
  | st, x :: xs =>
    let r := step st x
    let r2 := foldEmitK step r.st xs
    ⟨r2.st, r.evs ++ r2.evs, r.err || r2.err⟩

namespace ImageDownloader

/-- The computed-style url-extraction step inside `processElement`
(content.js lines 209-223): for one computed property value, when JS-truthy
and not `"none"`, match `/url\("?(.*?["']?)\)/g`, clean each match, and
emit it when unseen and `isPossibleImageSource`. -/
def stylePropStep (st : ScanState) (v : String) : ScanState × List Event :=
  if !v.isEmpty && v ≠ "none" then
    foldEmit
      (fun st u =>
        let c := cleanUrl u
        if ImageUtils.isPossibleImageSource c then tryEmit st c else (st, []))
      st (urlMatches1 v)
  else (st, [])

/-- The four computed properties read by `processElement`
(`['backgroundImage', 'content', 'mask', 'webkitMask']`). -/
def computedProps (e : Elem) : List String :=
  [e.computedBackgroundImage, e.computedContent, e.computedMask, e.computedWebkitMask]

/-- The canvas snapshot step inside `processElement`'s per-source loop
(content.js lines 199-205): for a `CANVAS` element, call `toDataURL`
directly — there is no `try`/`catch` here, so a tainted canvas's throw
escapes (`err = true`); on success the data URL is emitted when unseen. -/
def canvasStep (st : ScanState) (e : Elem) : StepResult :=
  if e.tagName = "CANVAS" then
    match e.canvasEncode with
    | Except.error _ => ⟨st, [], true⟩
    | Except.ok dataUrl =>
      let r := tryEmit st dataUrl
      ⟨r.1, r.2, false⟩
  else ⟨st, [], false⟩

/-- One iteration of `processElement`'s `for (const src of sources)` loop
(content.js lines 189-224): emit the source when unseen (the `IMG` /
non-`IMG` distinction only changes the button placement, not the event),
then the canvas step, then the computed-style step. -/
def srcStep (e : Elem) (st : ScanState) (src : String) : StepResult :=
  let r1 := tryEmit st src
  let r2 := canvasStep r1.1 e
  if r2.err then ⟨r2.st, r1.2 ++ r2.evs, true⟩
  else
    let r3 := foldEmit stylePropStep r2.st (computedProps e)
    ⟨r3.1, r1.2 ++ r2.evs ++ r3.2, false⟩

/-- `ImageDownloader.processElement` (content.js lines 184-225): skip
elements already in the visited `WeakSet`, otherwise mark visited and run
the per-source loop over `getAllPossibleSources`. -/
def processElement (st : ScanState) (e : Elem) : StepResult :=
  if e.id ∈ st.processedElements then ⟨st, [], false⟩
  else
    foldEmitE (srcStep e)
      { st with processedElements := e.id :: st.processedElements }
      (getAllPossibleSources e)

/-- `ImageDownloader.deepScanElement` (content.js lines 77-87), flattened:
the root, its `querySelectorAll('*')` descendants and shadow-root contents
are presented as one document-order list, each element passed through
`processElement`; an exception from one `await`ed call aborts the walk. -/
def deepScan (st : ScanState) (elems : List Elem) : StepResult :=
  foldEmitE processElement st elems

end ImageDownloader

/-! ## Comment / style-tag / base64 regex scanners -/

/-- The scheme head of `/https?:\/\//i` at the current position, with its
length (the greedy `s?` tries `https://` first). -/
def schemeLenAt (s : List Char) : Option Nat :=
  if ciIsPrefixOf "https://".data s then some 8
  else if ciIsPrefixOf "http://".data s then some 7
  else none

/-- Length of the extension matched by the alternation
`(?:jpg|jpeg|png|gif|webp|svg|avif)` as a case-insensitive prefix of `l`
(alternatives tried in order, as a regex engine does). -/
def extPrefixLen (l : List Char) : Option Nat :=
  extList7.findSome? (fun e => if ciIsPrefixOf e.data l then some e.data.length else none)

/-- Backtracking step of `/https?:\/\/[^\s]+\.(ext)/i` inside the
non-space run starting at the scheme: the greedy `[^\s]+` is cut back to
the right-most `.` (at index `d > plen`, so the `+` keeps at least one
char) followed by an extension; the match is `run.take (d + 1 + extLen)`. -/
def commentMatchAt (run : List Char) (plen : Nat) : Option (List Char × Nat) :=
  ((List.range run.length).filterMap (fun d =>
      if plen + 1 ≤ d ∧ run[d]? = some '.' then
        match extPrefixLen (run.drop (d + 1)) with
        | some el => some (run.take (d + 1 + el), d + 1 + el)
        | none => none
      else none)).getLast?

/-- Global scan of `/(https?:\/\/[^\s]+\.(?:jpg|jpeg|png|gif|webp|svg|avif))/gi`
(the HTML-comment matcher of `processComments`, content.js line 103). -/
def commentScan : Nat → List Char → List (List Char)
  | 0, _ => []
  | _, [] => []
  | fuel + 1, s@(_ :: rest) =>
    match schemeLenAt s with
    | some plen =>
      let run := s.takeWhile (fun ch => !ch.isWhitespace)
      match commentMatchAt run plen with
      | some (m, consumed) => m :: commentScan fuel (s.drop consumed)
      | none => commentScan fuel rest
    | none => commentScan fuel rest

/-- All comment-text URL matches. -/
def commentUrlMatches (s : String) : List String :=
  (commentScan s.data.length s.data).map String.mk

/-- Close of `["']?\)` at the head of the input, returning the consumed
quote (if any) and the remainder after the `)`. -/
def closeAfter : List Char → Option (List Char × List Char)
  | ')' :: r => some ([], r)
  | c :: ')' :: r => if isQuoteChar c then some ([c], r) else none
  | _ => none

/-- The literal `\.(?:jpg|jpeg|png|gif|webp|svg|avif)` at the head of the
input (case-insensitive), returning the consumed text and the remainder. -/
def tryExtDot : List Char → Option (List Char × List Char)
  | '.' :: r =>
    match extPrefixLen r with
    | some el => some ('.' :: r.take el, r.drop el)
    | none => none
  | _ => none

/-- Lazy body scan of
`/url\("?(.*?\.(?:jpg|jpeg|png|gif|webp|svg|avif))["']?\)/i` after `url(`:
extend the lazy `.*?` (which cannot cross a newline) until `.ext` followed
by `["']?\)` matches; returns the interior text (including any closing
quote) and the remainder after `)`. -/
def styleBodyScan : Nat → List Char → List Char → Option (List Char × List Char)
  | 0, _, _ => none
  | fuel + 1, acc, rem =>
    match tryExtDot rem with
    | some (extPart, afterExt) =>
      match closeAfter afterExt with
      | some (qc, after) => some (acc ++ extPart ++ qc, after)
      | none =>
        match rem with
        | [] => none
        | c :: r => if c = '\n' then none else styleBodyScan fuel (acc ++ [c]) r
    | none =>
      match rem with
      | [] => none
      | c :: r => if c = '\n' then none else styleBodyScan fuel (acc ++ [c]) r

/-- Global scan of
`/url\("?(.*?\.(?:jpg|jpeg|png|gif|webp|svg|avif))["']?\)/gi` (the
`<style>`-tag matcher of `scanAllImages`, content.js line 165), returning
full match texts. -/
def styleTagScan : Nat → List Char → List (List Char)
  | 0, _ => []
  | _, [] => []
  | fuel + 1, c :: rest =>
    if "url(".data.isPrefixOf (c :: rest) then
      let afterUrl := (c :: rest).drop 4
      let q : List Char × List Char :=
        match afterUrl with
        | '"' :: r => (['"'], r)
        | r => ([], r)
      match styleBodyScan (q.2.length + 1) [] q.2 with
      | some (interior, after) =>
        ("url(".data ++ q.1 ++ interior ++ [')']) :: styleTagScan fuel after
      | none => styleTagScan fuel rest
    else styleTagScan fuel rest

/-- All `<style>`-tag URL matches. -/
def styleTagMatches (s : String) : List String :=
  (styleTagScan s.data.length s.data).map String.mk

/-! ## Full scan and incremental scan (ImageDownloader, content.js) -/

/-- A same-origin iframe document as the scanner sees it: its flattened
element list and its comment texts. -/
structure SubDoc where
  elements : List Elem
  comments : List String
deriving DecidableEq

/-- The scanned document: the flattened main-document element list, the
main document's comment texts, the iframe documents
(`Except.error ()` models a cross-origin `contentDocument` access throw),
and the text contents of the `<style>` tags. -/
structure Dom where
  elements : List Elem
  comments : List String
  iframes : List (Except Unit SubDoc)
  styleTexts : List String

namespace ImageDownloader

/-- `ImageDownloader.processComments` (content.js lines 93-113): for each
comment text, each regex match is emitted when unseen. -/
def processComments (st : ScanState) (texts : List String) : ScanState × List Event :=
  foldEmit
    (fun st text => foldEmit (fun st u => tryEmit st u) st (commentUrlMatches text))
    st texts

/-- One iteration of the iframe loop of `scanAllImages` (content.js lines
151-160): the frame's document access, deep scan and comment scan run
inside a `try`/`catch`, so a cross-origin access throw skips the frame and
an exception during the frame's deep scan skips the rest of that frame
(its already-performed effects persist) without aborting the outer scan. -/
def frameStep (st : ScanState) (f : Except Unit SubDoc) : ScanState × List Event :=
  match f with
  | Except.error _ => (st, [])
  | Except.ok sub =>
    let r := deepScan st sub.elements
    if r.err then (r.st, r.evs)
    else
      let c := processComments r.st sub.comments
      (c.1, r.evs ++ c.2)

/-- The iframe loop of `scanAllImages` (content.js lines 151-160). -/
def scanFrames (st : ScanState) (frames : List (Except Unit SubDoc)) :
    ScanState × List Event :=
  foldEmit frameStep st frames

/-- The `<style>`-tag loop of `scanAllImages` (content.js lines 162-175):
each match is cleaned and emitted when unseen. -/
def scanStyleTags (st : ScanState) (texts : List String) : ScanState × List Event :=
  foldEmit
    (fun st text =>
      foldEmit (fun st u => tryEmit st (cleanUrl u)) st (styleTagMatches text))
    st texts

/-- `ImageDownloader.scanAllImages` (content.js lines 143-178): reset both
dedupe sets and remove all buttons (the `clear` event), deep-scan the
document, scan comments, then iframes, then `<style>` tags.  The deep scan
of the main document is awaited with no `try`/`catch`, so an exception
there (tainted canvas) rejects `scanAllImages` before the remaining phases
run.  The incoming state is discarded by the reset, exactly as in the
source. -/
def scanAllImages (dom : Dom) (_st : ScanState) : StepResult :=
  let st0 : ScanState := ⟨[], []⟩
  let r1 := deepScan st0 dom.elements
  if r1.err then ⟨r1.st, Event.clear :: r1.evs, true⟩
  else
    let p2 := processComments r1.st dom.comments
    let p3 := scanFrames p2.1 dom.iframes
    let p4 := scanStyleTags p3.1 dom.styleTexts
    ⟨p4.1, Event.clear :: (r1.evs ++ (p2.2 ++ (p3.2 ++ p4.2))), false⟩

/-- The incremental path (content.js lines 411-433): the mutation observer
hands each added element subtree (flattened) and each attribute-mutation
target to `processElement`, each in its own async callback, so an
exception in one does not stop the others. -/
def incrRun (st : ScanState) (elems : List Elem) : StepResult :=
  foldEmitK processElement st elems

/-- One scan epoch as the spec describes it: a `scanAllImages` run plus
the incremental `processElement` calls tied to the same ledger. -/
def scanThenIncr (dom : Dom) (incr : List Elem) : StepResult :=
  let r := scanAllImages dom ⟨[], []⟩
  let r2 := incrRun r.st incr
  ⟨r2.st, r.evs ++ r2.evs, r.err || r2.err⟩

end ImageDownloader

namespace ImageUtils

/-- `ImageUtils.getCanvasImage` (utils.js lines 146-154): the repository's
guarded canvas read — `toDataURL` inside `try`/`catch`, `null` on a
tainted-canvas throw. -/
def getCanvasImage (canvas : Elem) : Option String :=
  match canvas.canvasEncode with
  | Except.ok d => some d
  | Except.error _ => none

end ImageUtils

/-! ## findBase64Images (content.js lines 440-473) -/

/-- One match attempt of `/url\("?(data:image\n[^"]+)"?\)/` positioned
right after `url(`: optional `"`, the literal `data:image`, a literal
newline (the regex source writes `\n`), then a greedy non-`"` run closed by
`"?\)` (cut back to its last `)` if needed).  Returns the capture. -/
def bgB64At (s : List Char) : Option (List Char) :=
  let s1 :=
    match s with
    | '"' :: r => r
    | r => r
  match stripPrefixCL "data:image".data s1 with
  | none => none
  | some r2 =>
    match r2 with
    | '\n' :: r3 =>
      let run := r3.takeWhile (fun c => c ≠ '"')
      let rest := r3.dropWhile (fun c => c ≠ '"')
      if run.isEmpty then none
      else
        match rest with
        | '"' :: ')' :: _ => some ("data:image".data ++ '\n' :: run)
        | _ =>
          match splitAtLastParen run with
          | some (body, _) => some ("data:image".data ++ '\n' :: body)
          | none => none
    | _ => none

/-- First-match search of `/url\("?(data:image\n[^"]+)"?\)/` (the
background-image matcher inside `findBase64Images`, content.js lines 455
and 464), returning the capture group. -/
def bgBase64Scan : Nat → List Char → Option (List Char)
  | 0, _ => none
  | _, [] => none
  | fuel + 1, c :: rest =>
    if "url(".data.isPrefixOf (c :: rest) then
      match bgB64At ((c :: rest).drop 4) with
      | some cap => some cap
      | none => bgBase64Scan fuel rest
    else bgBase64Scan fuel rest

/-- The capture of the first `/url\("?(data:image\n[^"]+)"?\)/` match. -/
def bgBase64Match (s : String) : Option String :=
  (bgBase64Scan s.data.length s.data).map String.mk

namespace ImageDownloader

/-- `ImageDownloader.findBase64Images` (content.js lines 440-473):
collect `(element id, src)` pairs from (1) every attribute whose whole
value passes `isBase64Image`, (2) the computed `backgroundImage` when the
newline regex matches and its capture passes `isBase64Image`, (3) the
inline `style.backgroundImage` (when JS-truthy) under the same regex and
check. -/
def findBase64Images (e : Elem) : List (Nat × String) :=
  let imgs := e.attrs.foldl
    (fun acc attr =>
      if ImageUtils.isBase64Image attr.value then acc ++ [(e.id, attr.value)] else acc)
    []
  let imgs :=
    match bgBase64Match e.computedBackgroundImage with
    | some cap => if ImageUtils.isBase64Image cap then imgs ++ [(e.id, cap)] else imgs
    | none => imgs
  let imgs :=
    match
      (if !e.styleBackgroundImage.isEmpty then bgBase64Match e.styleBackgroundImage
       else none) with
    | some cap => if ImageUtils.isBase64Image cap then imgs ++ [(e.id, cap)] else imgs
    | none => imgs
  imgs

end ImageDownloader

/-! ## Interleaved scans (cancellation model)

`scanAllImages` is an `async` function: it runs synchronously from entry
through the set resets and `removeAllButtons` (one atomic step emitting
`clear`), then suspends at each `await this.processElement(...)`
(`processElement` itself contains no further suspension points), so a
concurrent scan's steps can interleave between element steps, all sharing
the one live `this.processedElements` / `this.processedSources` state.
A schedule tags each atomic step with the scan that issued it. -/

/-- One atomic step of a scan over a document with no extra comment /
iframe / style phases. -/
inductive Instr where
  | reset : Instr
  | procElem : Elem → Instr

/-- Execute one atomic step on the shared scanner state. -/
def execInstr (st : ScanState) : Instr → ScanState × List Event
  | Instr.reset => (⟨[], []⟩, [Event.clear])
  | Instr.procElem e =>
    let r := ImageDownloader.processElement st e
    (r.st, r.evs)

/-- Run a schedule of tagged steps, tagging each emitted event with the
scan that produced it. -/
def runTagged (st : ScanState) : List (Nat × Instr) → ScanState × List (Nat × Event)
  | [] => (st, [])
  | (tag, i) :: rest =>
    let r := execInstr st i
    let r2 := runTagged r.1 rest
    (r2.1, r.2.map (fun ev => (tag, ev)) ++ r2.2)

/-! ## Trace predicates -/

/-- The discovered sources of an event list, in order. -/
def discList : List Event → List String
  | [] => []
  | Event.discovered s :: rest => s :: discList rest
  | Event.clear :: rest => discList rest

/-- Number of `discovered s` events in a trace. -/
def countDisc (s : String) (evs : List Event) : Nat := (discList evs).count s

/-- Each source in the list is new relative to `seen` and to its
predecessors. -/
def FreshChain (seen : List String) : List String → Prop
  | [] => True
  | s :: rest => s ∉ seen ∧ FreshChain (s :: seen) rest

/-- Dedup-since-last-clear over a tagged trace: every `discovered` source
is new since the most recent `clear` (tags are irrelevant). -/
def CheckFreshT (seen : List String) : List (Nat × Event) → Prop
  | [] => True
  | (_, Event.clear) :: rest => CheckFreshT [] rest
  | (_, Event.discovered s) :: rest => s ∉ seen ∧ CheckFreshT (s :: seen) rest

/-- The invariant every emitting step of the scanner satisfies: the new
source set is exactly the emitted sources pushed onto the old one, every
emitted source was unseen at its emission point, and no `clear` is
emitted. -/
structure StepOk (st : ScanState) (evs : List Event) (st' : ScanState) : Prop where
  srcEq : st'.processedSources = (discList evs).reverse ++ st.processedSources
  fresh : FreshChain st.processedSources (discList evs)
  noClear : Event.clear ∉ evs

/-- A canvas whose snapshot call would throw if reached. -/
def canThrow (e : Elem) : Bool :=
  e.tagName = "CANVAS" &&
    (match e.canvasEncode with
     | Except.error _ => true
     | Except.ok _ => false)

/-- The elements of the accessible iframe documents, in frame order. -/
def framesElems (frames : List (Except Unit SubDoc)) : List Elem :=
  frames.foldr
    (fun f acc =>
      match f with
      | Except.ok sub => sub.elements ++ acc
      | Except.error _ => acc) []

/-- All elements a scan epoch can touch: main document, accessible iframe
documents, then the incremental additions. -/
def allScanElems (dom : Dom) (incr : List Elem) : List Elem :=
  dom.elements ++ framesElems dom.iframes ++ incr

/-! ## Lemmas: trace predicates -/

theorem discList_append (l1 l2 : List Event) :
    discList (l1 ++ l2) = discList l1 ++ discList l2 := by
  induction l1 with
  | nil => rfl
  | cons ev t ih => cases ev <;> simp [discList, ih]

theorem freshChain_append :
    ∀ {d1 : List String} {seen d2 : List String}, FreshChain seen d1 →
      FreshChain (d1.reverse ++ seen) d2 → FreshChain seen (d1 ++ d2) := by
  intro d1
  induction d1 with
  | nil => intro seen d2 _ h2; simpa using h2
  | cons s t ih =>
    intro seen d2 h1 h2
    obtain ⟨hn, hrest⟩ := h1
    refine ⟨hn, ih hrest ?_⟩
    simpa [List.append_assoc] using h2

theorem freshChain_mono :
    ∀ {d seen seen' : List String}, seen' ⊆ seen →
      FreshChain seen d → FreshChain seen' d := by
  intro d
  induction d with
  | nil => intro _ _ _ _; trivial
  | cons s t ih =>
    intro seen seen' hsub h
    obtain ⟨hn, hrest⟩ := h
    exact ⟨fun hx => hn (hsub hx), ih (List.cons_subset_cons s hsub) hrest⟩

theorem freshChain_nodup :
    ∀ {d seen : List String}, FreshChain seen d →
      d.Nodup ∧ ∀ x ∈ d, x ∉ seen := by
  intro d
  induction d with
  | nil => intro _ _; exact ⟨List.nodup_nil, by simp⟩
  | cons s t ih =>
    intro seen h
    obtain ⟨hn, hrest⟩ := h
    obtain ⟨hnd, hns⟩ := ih hrest
    constructor
    · refine List.nodup_cons.mpr ⟨fun hs => ?_, hnd⟩
      exact hns s hs (List.mem_cons_self s seen)
    · intro x hx
      rcases List.mem_cons.mp hx with rfl | hx'
      · exact hn
      · intro hxs
        exact hns x hx' (List.mem_cons_of_mem s hxs)

theorem freshChain_count_one {seen d : List String} {s : String}
    (h : FreshChain seen d) (hs : s ∈ d) : d.count s = 1 :=
  List.count_eq_one_of_mem (freshChain_nodup h).1 hs

theorem StepOk.nil (st : ScanState) : StepOk st [] st :=
  ⟨by simp [discList], trivial, by simp⟩

theorem StepOk.comp {st st1 st2 : ScanState} {l1 l2 : List Event}
    (h1 : StepOk st l1 st1) (h2 : StepOk st1 l2 st2) :
    StepOk st (l1 ++ l2) st2 := by
  refine ⟨?_, ?_, ?_⟩
  · rw [discList_append, List.reverse_append, List.append_assoc, ← h1.srcEq, ← h2.srcEq]
  · rw [discList_append]
    refine freshChain_append h1.fresh ?_
    rw [← h1.srcEq]
    exact h2.fresh
  · simp only [List.mem_append]
    rintro (h | h)
    · exact h1.noClear h
    · exact h2.noClear h

theorem StepOk.srcMono {st st' : ScanState} {l : List Event}
    (h : StepOk st l st') {s : String}
    (hs : s ∈ st.processedSources) : s ∈ st'.processedSources := by
  rw [h.srcEq]
  exact List.mem_append_right _ hs

/-! ## Lemmas: emitting steps satisfy StepOk -/

theorem tryEmit_ok (st : ScanState) (s : String) :
    StepOk st (tryEmit st s).2 (tryEmit st s).1 := by
  unfold tryEmit
  split
  · exact StepOk.nil st
  · rename_i h
    exact ⟨by simp [discList], ⟨h, trivial⟩, by simp⟩

theorem tryEmit_pe (st : ScanState) (s : String) :
    (tryEmit st s).1.processedElements = st.processedElements := by
  unfold tryEmit
  split <;> rfl

theorem tryEmit_self_mem (st : ScanState) (s : String) :
    s ∈ (tryEmit st s).1.processedSources := by
  unfold tryEmit
  split
  · assumption
  · exact List.mem_cons_self s _

theorem foldEmit_ok {α : Type} (step : ScanState → α → ScanState × List Event)
    (hstep : ∀ st x, StepOk st (step st x).2 (step st x).1) :
    ∀ (xs : List α) (st : ScanState),
      StepOk st (foldEmit step st xs).2 (foldEmit step st xs).1 := by
  intro xs
  induction xs with
  | nil => intro st; exact StepOk.nil st
  | cons x t ih =>
    intro st
    simpa [foldEmit] using StepOk.comp (hstep st x) (ih (step st x).1)

theorem foldEmit_pe {α : Type} (step : ScanState → α → ScanState × List Event)
    (hstep : ∀ st x, (step st x).1.processedElements = st.processedElements) :
    ∀ (xs : List α) (st : ScanState),
      (foldEmit step st xs).1.processedElements = st.processedElements := by
  intro xs
  induction xs with
  | nil => intro st; rfl
  | cons x t ih =>
    intro st
    simp only [foldEmit]
    rw [ih (step st x).1, hstep st x]

theorem foldEmitE_ok {α : Type} (step : ScanState → α → StepResult)
    (hstep : ∀ st x, StepOk st (step st x).evs (step st x).st) :
    ∀ (xs : List α) (st : ScanState),
      StepOk st (foldEmitE step st xs).evs (foldEmitE step st xs).st := by
  intro xs
  induction xs with
  | nil => intro st; exact StepOk.nil st
  | cons x t ih =>
    intro st
    simp only [foldEmitE]
    split
    · exact hstep st x
    · simpa using StepOk.comp (hstep st x) (ih (step st x).st)

theorem foldEmitE_pe {α : Type} (step : ScanState → α → StepResult)
    (hstep : ∀ st x, (step st x).st.processedElements = st.processedElements) :
    ∀ (xs : List α) (st : ScanState),
      (foldEmitE step st xs).st.processedElements = st.processedElements := by
  intro xs
  induction xs with
  | nil => intro st; rfl
  | cons x t ih =>
    intro st
    simp only [foldEmitE]
    split
    · exact hstep st x
    · simp only []
      rw [ih (step st x).st, hstep st x]

theorem foldEmitE_err_all {α : Type} (step : ScanState → α → StepResult)
    (xs : List α) (hstep : ∀ x ∈ xs, ∀ st, (step st x).err = false) :
    ∀ (st : ScanState), (foldEmitE step st xs).err = false := by
  induction xs with
  | nil => intro st; rfl
  | cons x t ih =>
    intro st
    simp only [foldEmitE]
    split
    · rename_i h
      rw [hstep x (List.mem_cons_self x t) st] at h
      exact absurd h (by simp)
    · exact ih (fun y hy st' => hstep y (List.mem_cons_of_mem x hy) st') (step st x).st

theorem foldEmitK_ok {α : Type} (step : ScanState → α → StepResult)
    (hstep : ∀ st x, StepOk st (step st x).evs (step st x).st) :
    ∀ (xs : List α) (st : ScanState),
      StepOk st (foldEmitK step st xs).evs (foldEmitK step st xs).st := by
  intro xs
  induction xs with
  | nil => intro st; exact StepOk.nil st
  | cons x t ih =>
    intro st
    simpa [foldEmitK] using StepOk.comp (hstep st x) (ih (step st x).st)

namespace ImageDownloader

theorem stylePropStep_ok (st : ScanState) (v : String) :
    StepOk st (stylePropStep st v).2 (stylePropStep st v).1 := by
  unfold stylePropStep
  split
  · exact foldEmit_ok _
      (fun st u => by
        dsimp only
        split
        · exact tryEmit_ok st (cleanUrl u)
        · exact StepOk.nil st) _ st
  · exact StepOk.nil st

theorem stylePropStep_pe (st : ScanState) (v : String) :
    (stylePropStep st v).1.processedElements = st.processedElements := by
  unfold stylePropStep
  split
  · exact foldEmit_pe _
      (fun st u => by
        dsimp only
        split
        · exact tryEmit_pe st (cleanUrl u)
        · rfl) _ st
  · rfl

theorem canvasStep_ok (st : ScanState) (e : Elem) :
    StepOk st (canvasStep st e).evs (canvasStep st e).st := by
  unfold canvasStep
  split
  · split
    · exact StepOk.nil st
    · exact tryEmit_ok st _
  · exact StepOk.nil st

theorem canvasStep_pe (st : ScanState) (e : Elem) :
    (canvasStep st e).st.processedElements = st.processedElements := by
  unfold canvasStep
  split
  · split
    · rfl
    · exact tryEmit_pe st _
  · rfl

theorem canvasStep_err (st : ScanState) (e : Elem) :
    (canvasStep st e).err = canThrow e := by
  unfold canvasStep canThrow
  split
  · rename_i h
    cases hc : e.canvasEncode <;> simp [h, hc]
  · rename_i h
    simp [h]

theorem srcStep_ok (e : Elem) (st : ScanState) (src : String) :
    StepOk st (srcStep e st src).evs (srcStep e st src).st := by
  unfold srcStep
  dsimp only
  split
  · exact StepOk.comp (tryEmit_ok st src) (canvasStep_ok (tryEmit st src).1 e)
  · exact StepOk.comp
      (StepOk.comp (tryEmit_ok st src) (canvasStep_ok (tryEmit st src).1 e))
      (foldEmit_ok _ stylePropStep_ok _ _)

theorem srcStep_pe (e : Elem) (st : ScanState) (src : String) :
    (srcStep e st src).st.processedElements = st.processedElements := by
  unfold srcStep
  dsimp only
  split
  · rw [canvasStep_pe, tryEmit_pe]
  · rw [foldEmit_pe _ stylePropStep_pe, canvasStep_pe, tryEmit_pe]

theorem srcStep_err (e : Elem) (st : ScanState) (src : String) :
    (srcStep e st src).err = canThrow e := by
  unfold srcStep
  dsimp only
  rw [← canvasStep_err (tryEmit st src).1 e]
  split
  · rename_i h
    simp [h]
  · rename_i h
    simp at h
    simp [h]

theorem srcStep_self_mem (e : Elem) (st : ScanState) (src : String) :
    src ∈ (srcStep e st src).st.processedSources := by
  unfold srcStep
  dsimp only
  split
  · exact (canvasStep_ok (tryEmit st src).1 e).srcMono (tryEmit_self_mem st src)
  · exact (foldEmit_ok _ stylePropStep_ok _ _).srcMono
      ((canvasStep_ok (tryEmit st src).1 e).srcMono (tryEmit_self_mem st src))

theorem processElement_ok (st : ScanState) (e : Elem) :
    StepOk st (processElement st e).evs (processElement st e).st := by
  unfold processElement
  split
  · exact StepOk.nil st
  · have h := foldEmitE_ok (srcStep e) (fun st x => srcStep_ok e st x)
      (getAllPossibleSources e)
      { st with processedElements := e.id :: st.processedElements }
    exact ⟨h.srcEq, h.fresh, h.noClear⟩

theorem processElement_of_visited {st : ScanState} {e : Elem}
    (h : e.id ∈ st.processedElements) :
    processElement st e = ⟨st, [], false⟩ := by
  unfold processElement
  rw [if_pos h]

theorem processElement_pe_of_new {st : ScanState} {e : Elem}
    (h : e.id ∉ st.processedElements) :
    (processElement st e).st.processedElements = e.id :: st.processedElements := by
  unfold processElement
  rw [if_neg h]
  exact foldEmitE_pe _ (fun st x => srcStep_pe e st x) _ _

theorem processElement_pe_sub (st : ScanState) (e : Elem) :
    ∀ x ∈ (processElement st e).st.processedElements,
      x = e.id ∨ x ∈ st.processedElements := by
  intro x hx
  by_cases h : e.id ∈ st.processedElements
  · rw [processElement_of_visited h] at hx
    exact Or.inr hx
  · rw [processElement_pe_of_new h] at hx
    rcases List.mem_cons.mp hx with h' | h'
    · exact Or.inl h'
    · exact Or.inr h'

theorem processElement_err_false {e : Elem} (hsafe : canThrow e = false)
    (st : ScanState) : (processElement st e).err = false := by
  unfold processElement
  split
  · rfl
  · exact foldEmitE_err_all _ _ (fun x _ st' => by rw [srcStep_err, hsafe]) _

theorem processSources_mem (e : Elem) :
    ∀ (srcs : List String) (st : ScanState),
      (foldEmitE (srcStep e) st srcs).err = false →
      ∀ s ∈ srcs, s ∈ (foldEmitE (srcStep e) st srcs).st.processedSources := by
  intro srcs
  induction srcs with
  | nil => intro st _ s hs; exact absurd hs (List.not_mem_nil s)
  | cons x t ih =>
    intro st herr s hs
    simp only [foldEmitE] at herr ⊢
    by_cases hr : (srcStep e st x).err = true
    · rw [if_pos hr] at herr
      exact absurd herr (by simp)
    · rw [if_neg hr] at herr ⊢
      dsimp only at herr ⊢
      rcases List.mem_cons.mp hs with rfl | hs'
      · exact (foldEmitE_ok _ (fun st' x' => srcStep_ok e st' x') t _).srcMono
          (srcStep_self_mem e st s)
      · exact ih (srcStep e st x).st herr s hs'

theorem processElement_mem {st : ScanState} {e : Elem} {s : String}
    (hv : e.id ∉ st.processedElements)
    (hsafe : canThrow e = false)
    (hs : s ∈ getAllPossibleSources e) :
    s ∈ (processElement st e).st.processedSources := by
  unfold processElement
  rw [if_neg hv]
  refine processSources_mem e _ _ ?_ s hs
  exact foldEmitE_err_all _ _ (fun x _ st' => by rw [srcStep_err, hsafe]) _

theorem deepScan_ok (st : ScanState) (elems : List Elem) :
    StepOk st (deepScan st elems).evs (deepScan st elems).st :=
  foldEmitE_ok _ processElement_ok elems st

theorem deepScan_err_false {elems : List Elem}
    (h : ∀ x ∈ elems, canThrow x = false) (st : ScanState) :
    (deepScan st elems).err = false :=
  foldEmitE_err_all _ _ (fun x hx st' => processElement_err_false (h x hx) st') st

theorem deepScan_pe_bound :
    ∀ (elems : List Elem) (st : ScanState) (x : Nat),
      x ∈ (deepScan st elems).st.processedElements →
      x ∈ elems.map Elem.id ++ st.processedElements := by
  intro elems
  induction elems with
  | nil =>
    intro st x hx
    simp only [deepScan, foldEmitE] at hx
    simpa using hx
  | cons a t ih =>
    intro st x hx
    simp only [deepScan, foldEmitE] at hx
    have goalOf : x = a.id ∨ x ∈ t.map Elem.id ∨ x ∈ st.processedElements →
        x ∈ (a :: t).map Elem.id ++ st.processedElements := by
      intro h
      simp only [List.map_cons, List.cons_append, List.mem_cons, List.mem_append]
      tauto
    revert hx
    split
    · intro hx
      dsimp only at hx
      refine goalOf ?_
      rcases processElement_pe_sub st a x hx with h' | h'
      · exact Or.inl h'
      · exact Or.inr (Or.inr h')
    · intro hx
      dsimp only at hx
      have h2 := ih (processElement st a).st x hx
      refine goalOf ?_
      rcases List.mem_append.mp h2 with h' | h'
      · exact Or.inr (Or.inl h')
      · rcases processElement_pe_sub st a x h' with h'' | h''
        · exact Or.inl h''
        · exact Or.inr (Or.inr h'')

theorem deepScan_mem :
    ∀ (elems : List Elem) (st : ScanState) (e : Elem) (s : String),
      e ∈ elems →
      (elems.map Elem.id).Nodup →
      (∀ x ∈ elems, canThrow x = false) →
      e.id ∉ st.processedElements →
      s ∈ getAllPossibleSources e →
      s ∈ (deepScan st elems).st.processedSources := by
  intro elems
  induction elems with
  | nil => intro st e s he; exact absurd he (List.not_mem_nil e)
  | cons a t ih =>
    intro st e s he hN hsafe hv hs
    have hra : (processElement st a).err = false :=
      processElement_err_false (hsafe a (List.mem_cons_self a t)) st
    simp only [deepScan, foldEmitE]
    rw [if_neg (by rw [hra]; simp)]
    dsimp only
    rcases List.mem_cons.mp he with rfl | he'
    · have hm : s ∈ (processElement st e).st.processedSources :=
        processElement_mem hv (hsafe e (List.mem_cons_self e t)) hs
      exact (foldEmitE_ok _ processElement_ok t _).srcMono hm
    · have hN' : (a.id :: t.map Elem.id).Nodup := by simpa using hN
      have hne : e.id ≠ a.id := by
        intro hEq
        exact (List.nodup_cons.mp hN').1 (hEq ▸ List.mem_map_of_mem Elem.id he')
      have hv' : e.id ∉ (processElement st a).st.processedElements := by
        intro hmem
        rcases processElement_pe_sub st a e.id hmem with h' | h'
        · exact hne h'
        · exact hv h'
      exact ih (processElement st a).st e s he' (List.nodup_cons.mp hN').2
        (fun x hx => hsafe x (List.mem_cons_of_mem a hx)) hv' hs

theorem incrRun_ok (st : ScanState) (elems : List Elem) :
    StepOk st (incrRun st elems).evs (incrRun st elems).st :=
  foldEmitK_ok _ processElement_ok elems st

theorem incrRun_mem :
    ∀ (elems : List Elem) (st : ScanState) (e : Elem) (s : String),
      e ∈ elems →
      (elems.map Elem.id).Nodup →
      canThrow e = false →
      e.id ∉ st.processedElements →
      s ∈ getAllPossibleSources e →
      s ∈ (incrRun st elems).st.processedSources := by
  intro elems
  induction elems with
  | nil => intro st e s he; exact absurd he (List.not_mem_nil e)
  | cons a t ih =>
    intro st e s he hN hsafe hv hs
    simp only [incrRun, foldEmitK] at ih ⊢
    rcases List.mem_cons.mp he with rfl | he'
    · have hm : s ∈ (processElement st e).st.processedSources :=
        processElement_mem hv hsafe hs
      exact (foldEmitK_ok _ processElement_ok t _).srcMono hm
    · have hN' : (a.id :: t.map Elem.id).Nodup := by simpa using hN
      have hne : e.id ≠ a.id := by
        intro hEq
        exact (List.nodup_cons.mp hN').1 (hEq ▸ List.mem_map_of_mem Elem.id he')
      have hv' : e.id ∉ (processElement st a).st.processedElements := by
        intro hmem
        rcases processElement_pe_sub st a e.id hmem with h' | h'
        · exact hne h'
        · exact hv h'
      exact ih (processElement st a).st e s he' (List.nodup_cons.mp hN').2 hsafe hv' hs

theorem processComments_ok (st : ScanState) (texts : List String) :
    StepOk st (processComments st texts).2 (processComments st texts).1 :=
  foldEmit_ok _
    (fun st text => foldEmit_ok _ (fun st u => tryEmit_ok st u) (commentUrlMatches text) st)
    texts st

theorem processComments_pe (st : ScanState) (texts : List String) :
    (processComments st texts).1.processedElements = st.processedElements :=
  foldEmit_pe _
    (fun st text => foldEmit_pe _ (fun st u => tryEmit_pe st u) (commentUrlMatches text) st)
    texts st

theorem scanStyleTags_ok (st : ScanState) (texts : List String) :
    StepOk st (scanStyleTags st texts).2 (scanStyleTags st texts).1 :=
  foldEmit_ok _
    (fun st text =>
      foldEmit_ok _ (fun st u => tryEmit_ok st (cleanUrl u)) (styleTagMatches text) st)
    texts st

theorem scanStyleTags_pe (st : ScanState) (texts : List String) :
    (scanStyleTags st texts).1.processedElements = st.processedElements :=
  foldEmit_pe _
    (fun st text =>
      foldEmit_pe _ (fun st u => tryEmit_pe st (cleanUrl u)) (styleTagMatches text) st)
    texts st

theorem frameStep_ok (st : ScanState) (f : Except Unit SubDoc) :
    StepOk st (frameStep st f).2 (frameStep st f).1 := by
  cases f with
  | error u => exact StepOk.nil st
  | ok sub =>
    unfold frameStep
    dsimp only
    split
    · exact deepScan_ok st sub.elements
    · exact StepOk.comp (deepScan_ok st sub.elements)
        (processComments_ok (deepScan st sub.elements).st sub.comments)

theorem frameStep_pe_bound (st : ScanState) (f : Except Unit SubDoc) :
    ∀ x ∈ (frameStep st f).1.processedElements,
      x ∈ (match f with
            | Except.ok sub => sub.elements
            | Except.error _ => []).map Elem.id ++ st.processedElements := by
  intro x hx
  cases f with
  | error u => simpa [frameStep] using hx
  | ok sub =>
    unfold frameStep at hx
    dsimp only at hx
    revert hx
    split
    · intro hx
      simpa using deepScan_pe_bound sub.elements st x hx
    · intro hx
      rw [processComments_pe] at hx
      simpa using deepScan_pe_bound sub.elements st x hx

theorem scanFrames_ok (st : ScanState) (frames : List (Except Unit SubDoc)) :
    StepOk st (scanFrames st frames).2 (scanFrames st frames).1 :=
  foldEmit_ok _ frameStep_ok frames st

theorem framesElems_cons_ok (sub : SubDoc) (t : List (Except Unit SubDoc)) :
    framesElems (Except.ok sub :: t) = sub.elements ++ framesElems t := rfl

theorem framesElems_cons_err (u : Unit) (t : List (Except Unit SubDoc)) :
    framesElems (Except.error u :: t) = framesElems t := rfl

theorem scanFrames_pe_bound :
    ∀ (frames : List (Except Unit SubDoc)) (st : ScanState) (x : Nat),
      x ∈ (scanFrames st frames).1.processedElements →
      x ∈ (framesElems frames).map Elem.id ++ st.processedElements := by
  intro frames
  induction frames with
  | nil =>
    intro st x hx
    simp only [scanFrames, foldEmit] at hx
    simpa [framesElems] using hx
  | cons f t ih =>
    intro st x hx
    simp only [scanFrames, foldEmit] at hx ih
    have h2 := ih (frameStep st f).1 x hx
    have h3 : x ∈ (framesElems t).map Elem.id ∨ x ∈ (frameStep st f).1.processedElements :=
      List.mem_append.mp h2
    cases f with
    | error u =>
      rw [framesElems_cons_err]
      rcases h3 with h' | h'
      · exact List.mem_append_left _ h'
      · exact List.mem_append_right _ (by simpa [frameStep] using h')
    | ok sub =>
      rw [framesElems_cons_ok, List.map_append, List.append_assoc]
      rcases h3 with h' | h'
      · exact List.mem_append_right _ (List.mem_append_left _ h')
      · have h4 := frameStep_pe_bound st (Except.ok sub) x h'
        rcases List.mem_append.mp h4 with h'' | h''
        · exact List.mem_append_left _ (by simpa using h'')
        · exact List.mem_append_right _ (List.mem_append_right _ h'')

theorem scanAllImages_spec (dom : Dom) (st : ScanState) :
    ∃ rest, (scanAllImages dom st).evs = Event.clear :: rest ∧
      StepOk ⟨[], []⟩ rest (scanAllImages dom st).st := by
  unfold scanAllImages
  dsimp only
  split
  · exact ⟨_, rfl, deepScan_ok _ _⟩
  · exact ⟨_, rfl,
      StepOk.comp (deepScan_ok _ _)
        (StepOk.comp (processComments_ok _ _)
          (StepOk.comp (scanFrames_ok _ _) (scanStyleTags_ok _ _)))⟩

theorem scanAllImages_pe_bound (dom : Dom) (st : ScanState) :
    ∀ x ∈ (scanAllImages dom st).st.processedElements,
      x ∈ dom.elements.map Elem.id ++ (framesElems dom.iframes).map Elem.id := by
  unfold scanAllImages
  dsimp only
  split
  · intro x hx
    have h := deepScan_pe_bound dom.elements ⟨[], []⟩ x hx
    exact List.mem_append_left _ (by simpa using h)
  · intro x hx
    rw [scanStyleTags_pe] at hx
    have h3 := scanFrames_pe_bound dom.iframes _ x hx
    rcases List.mem_append.mp h3 with h' | h'
    · exact List.mem_append_right _ h'
    · rw [processComments_pe] at h'
      have h4 := deepScan_pe_bound dom.elements ⟨[], []⟩ x h'
      exact List.mem_append_left _ (by simpa using h4)

theorem scanAllImages_err_false (dom : Dom) (st : ScanState)
    (hsafe : ∀ x ∈ dom.elements, canThrow x = false) :
    (scanAllImages dom st).err = false := by
  unfold scanAllImages
  dsimp only
  rw [if_neg (by rw [deepScan_err_false hsafe]; simp)]

theorem scanAllImages_mem (dom : Dom) (st : ScanState) (e : Elem) (s : String)
    (he : e ∈ dom.elements)
    (hN : (dom.elements.map Elem.id).Nodup)
    (hsafe : ∀ x ∈ dom.elements, canThrow x = false)
    (hs : s ∈ getAllPossibleSources e) :
    s ∈ (scanAllImages dom st).st.processedSources := by
  unfold scanAllImages
  dsimp only
  rw [if_neg (by rw [deepScan_err_false hsafe]; simp)]
  dsimp only
  have h1 : s ∈ (deepScan ⟨[], []⟩ dom.elements).st.processedSources :=
    deepScan_mem dom.elements ⟨[], []⟩ e s he hN hsafe (by simp) hs
  exact (scanStyleTags_ok _ _).srcMono
    ((scanFrames_ok _ _).srcMono ((processComments_ok _ _).srcMono h1))

theorem scanThenIncr_spec (dom : Dom) (incr : List Elem) :
    ∃ rest, (scanThenIncr dom incr).evs = Event.clear :: rest ∧
      StepOk ⟨[], []⟩ rest (scanThenIncr dom incr).st := by
  obtain ⟨rest, hevs, hok⟩ := scanAllImages_spec dom ⟨[], []⟩
  refine ⟨rest ++ (incrRun (scanAllImages dom ⟨[], []⟩).st incr).evs, ?_, ?_⟩
  · show (scanAllImages dom ⟨[], []⟩).evs ++ (incrRun (scanAllImages dom ⟨[], []⟩).st incr).evs
      = _
    rw [hevs]
    rfl
  · exact StepOk.comp hok (incrRun_ok _ incr)

theorem scanThenIncr_mem (dom : Dom) (incr : List Elem) (e : Elem) (s : String)
    (he : e ∈ dom.elements ++ incr)
    (hN : ((allScanElems dom incr).map Elem.id).Nodup)
    (hsafe : ∀ x ∈ allScanElems dom incr, canThrow x = false)
    (hs : s ∈ getAllPossibleSources e) :
    s ∈ (scanThenIncr dom incr).st.processedSources := by
  have hNsplit : (dom.elements.map Elem.id ++ (framesElems dom.iframes).map Elem.id
      ++ incr.map Elem.id).Nodup := by
    simpa [allScanElems, List.map_append] using hN
  have hsafeMain : ∀ x ∈ dom.elements, canThrow x = false := fun x hx =>
    hsafe x (by simp [allScanElems]; tauto)
  show s ∈ (incrRun (scanAllImages dom ⟨[], []⟩).st incr).st.processedSources
  rcases List.mem_append.mp he with he' | he'
  · exact (incrRun_ok _ incr).srcMono
      (scanAllImages_mem dom ⟨[], []⟩ e s he'
        ((List.nodup_append.mp (List.nodup_append.mp hNsplit).1).1) hsafeMain hs)
  · have hvIncr : e.id ∉ (scanAllImages dom ⟨[], []⟩).st.processedElements := by
      intro hmem
      have hb := scanAllImages_pe_bound dom ⟨[], []⟩ e.id hmem
      have hidIncr : e.id ∈ incr.map Elem.id := List.mem_map_of_mem Elem.id he'
      have hdisj := (List.nodup_append.mp hNsplit).2.2
      exact hdisj hb hidIncr
    exact incrRun_mem incr _ e s he' ((List.nodup_append.mp hNsplit).2.1)
      (hsafe e (by simp [allScanElems]; tauto)) hvIncr hs

end ImageDownloader

/-! ## Lemmas: interleaved scans -/

theorem checkFreshT_append_noClear :
    ∀ {evs : List Event} {seen : List String} {tag : Nat} {l2 : List (Nat × Event)},
      Event.clear ∉ evs →
      FreshChain seen (discList evs) →
      CheckFreshT ((discList evs).reverse ++ seen) l2 →
      CheckFreshT seen (evs.map (fun ev => (tag, ev)) ++ l2) := by
  intro evs
  induction evs with
  | nil => intro seen tag l2 _ _ h2; simpa using h2
  | cons ev t ih =>
    intro seen tag l2 hnc hf h2
    cases ev with
    | clear => exact absurd (List.mem_cons_self _ _) hnc
    | discovered s =>
      obtain ⟨hn, hrest⟩ := hf
      refine ⟨hn, ?_⟩
      refine ih (fun hm => hnc (List.mem_cons_of_mem _ hm)) hrest ?_
      simpa [discList, List.append_assoc] using h2

theorem runTagged_fresh :
    ∀ (sched : List (Nat × Instr)) (st : ScanState) (seen : List String),
      seen ⊆ st.processedSources →
      CheckFreshT seen (runTagged st sched).2 := by
  intro sched
  induction sched with
  | nil => intro st seen _; trivial
  | cons ti rest ih =>
    intro st seen hsub
    obtain ⟨tag, i⟩ := ti
    simp only [runTagged]
    cases i with
    | reset =>
      show CheckFreshT seen ((tag, Event.clear) :: (runTagged ⟨[], []⟩ rest).2)
      exact ih ⟨[], []⟩ [] (by simp)
    | procElem e =>
      have hok := ImageDownloader.processElement_ok st e
      refine checkFreshT_append_noClear hok.noClear (freshChain_mono hsub hok.fresh) ?_
      refine ih (ImageDownloader.processElement st e).st _ ?_
      intro x hx
      rcases List.mem_append.mp hx with h' | h'
      · rw [hok.srcEq]
        exact List.mem_append_left _ h'
      · exact hok.srcMono (hsub h')

/-! ## Claim theorems -/

/-- A canvas element exposing one attribute-derived source (`data-src`
ending in `.png`) whose `toDataURL` throws (tainted canvas). -/
def taintedCanvas : Elem :=
  ⟨1, "CANVAS", [⟨"data-src", "art.png"⟩], "", "none", "none", "none", "none",
    Except.error ()⟩

/-- A document whose only element is the tainted canvas. -/
def taintedDom : Dom := ⟨[taintedCanvas], [], [], []⟩

/-- C2: the claim says a canvas whose `toDataURL` throws is caught at
element scope and the scan still completes with no discovered event for
that canvas.  On the code this fails: `processElement` (content.js:200)
calls `element.toDataURL` with no `try`/`catch`, so the exception escapes
`deepScanElement` and aborts `scanAllImages` (`err = true`), the comment /
iframe / style phases never run, and no completion is reached — even
though the repository's own `ImageUtils.getCanvasImage` exists precisely
to catch this case and return no data.  This theorem evaluates the code at
the failing input. -/
theorem C2_tainted_canvas_aborts_scan :
    (ImageDownloader.scanAllImages taintedDom ⟨[], []⟩).err = true ∧
    (ImageDownloader.scanAllImages taintedDom ⟨[], []⟩).evs
      = [Event.clear, Event.discovered "art.png"] ∧
    ImageUtils.getCanvasImage taintedCanvas = none :=
  ⟨by decide, by decide, rfl⟩

/-- First element of the interleaving counterexample. -/
def c3ElemA : Elem :=
  ⟨1, "IMG", [⟨"src", "https://x/a.png"⟩], "", "none", "none", "none", "none",
    Except.ok ""⟩

/-- Second element of the interleaving counterexample. -/
def c3ElemB : Elem :=
  ⟨2, "IMG", [⟨"src", "https://x/b.png"⟩], "", "none", "none", "none", "none",
    Except.ok ""⟩

/-- Scan A (tag 0) starts and processes element 1; scan B (tag 1) starts
before A finishes; A's remaining step runs after B's clear; B finishes. -/
def c3Schedule : List (Nat × Instr) :=
  [(0, Instr.reset), (0, Instr.procElem c3ElemA),
   (1, Instr.reset),
   (0, Instr.procElem c3ElemB),
   (1, Instr.procElem c3ElemA), (1, Instr.procElem c3ElemB)]

/-- C3 counterexample: the claim says consumers observe only scan B's
`clear`/`discovered` sequence and every stale step of scan A checks a
captured epoch id and silently drops its result.  The code has no epoch
identifier at all: in this interleaving the stale scan-0 step emits
`discovered "https://x/b.png"` (index 3) after scan 1's `clear`
(index 2), writes it into scan 1's fresh ledger, and scan 1 consequently
never emits that source itself — its trace is missing `https://x/b.png`. -/
theorem C3_cancellation_counterexample :
    (runTagged ⟨[], []⟩ c3Schedule).2 =
      [(0, Event.clear), (0, Event.discovered "https://x/a.png"),
       (1, Event.clear),
       (0, Event.discovered "https://x/b.png"),
       (1, Event.discovered "https://x/a.png")] ∧
    (runTagged ⟨[], []⟩ c3Schedule).2[2]? = some (1, Event.clear) ∧
    (runTagged ⟨[], []⟩ c3Schedule).2[3]? =
      some (0, Event.discovered "https://x/b.png") :=
  ⟨by decide, by decide, by decide⟩

/-- C3 amended: there is no epoch check — a stale scan's in-flight steps
write into the now-current ledger and can emit after the newer scan's
clear.  What does hold is that all interleaved steps share the one live
dedupe ledger, so along any schedule of scan steps, after the most recent
`clear` every source is discovered at most once. -/
theorem C3_cancellation_amended :
    ∀ sched : List (Nat × Instr), CheckFreshT [] (runTagged ⟨[], []⟩ sched).2 :=
  fun sched => runTagged_fresh sched ⟨[], []⟩ [] (by simp)

/-- C4: running a full scan twice on an unchanged document produces the
same observable result both times — `scanAllImages` resets the ledger on
entry so its result does not depend on the incoming state at all — and
each scan's trace is the `clear` signal first (no later `clear`), followed
by discovered sources each emitted exactly once. -/
theorem C4_full_scan_idempotent :
    ∀ (dom : Dom) (st1 st2 : ScanState),
      ImageDownloader.scanAllImages dom st1 = ImageDownloader.scanAllImages dom st2 ∧
      ∃ rest, (ImageDownloader.scanAllImages dom st1).evs = Event.clear :: rest ∧
        Event.clear ∉ rest ∧ (discList rest).Nodup := by
  intro dom st1 st2
  refine ⟨rfl, ?_⟩
  obtain ⟨rest, hevs, hok⟩ := ImageDownloader.scanAllImages_spec dom st1
  exact ⟨rest, hevs, hok.noClear, (freshChain_nodup hok.fresh).1⟩

/-- The element as first processed (before the attribute mutation). -/
def c5ElemOld : Elem :=
  ⟨1, "IMG", [⟨"src", "https://x/old.png"⟩], "", "none", "none", "none", "none",
    Except.ok ""⟩

/-- The same node (same identity 1) after its `src` attribute changed to a
new qualifying source. -/
def c5ElemNew : Elem :=
  ⟨1, "IMG", [⟨"src", "https://x/new.png"⟩], "", "none", "none", "none", "none",
    Except.ok ""⟩

/-- C5 counterexample: the claim says an attribute mutation on an
already-visited element re-runs extraction so the new qualifying source is
emitted.  On the code this fails: the mutation observer does call
`processElement` on the target, but `processElement`'s first line returns
immediately for any element already in `processedElements`, so after the
`src` change from `old.png` to `new.png` nothing is emitted and the state
is unchanged — even though the mutated element exposes the new qualifying
source. -/
theorem C5_attribute_mutation_counterexample :
    getAllPossibleSources c5ElemNew = ["https://x/new.png"] ∧
    (ImageDownloader.processElement
        (ImageDownloader.processElement ⟨[], []⟩ c5ElemOld).st c5ElemNew).evs = [] ∧
    (ImageDownloader.processElement
        (ImageDownloader.processElement ⟨[], []⟩ c5ElemOld).st c5ElemNew).st =
      (ImageDownloader.processElement ⟨[], []⟩ c5ElemOld).st :=
  ⟨by decide, by decide, by decide⟩

/-- C5 amended: an attribute mutation feeds the element back into
`processElement`, but the visited mark does block attribute-driven
re-extraction: for any element already in the visited set,
`processElement` is a complete no-op (no re-extraction, no emission, no
state change), so a new qualifying source introduced by an attribute
change on a visited element is never emitted. -/
theorem C5_attribute_mutation_amended (st : ScanState) (e : Elem)
    (h : e.id ∈ st.processedElements) :
    ImageDownloader.processElement st e = ⟨st, [], false⟩ :=
  ImageDownloader.processElement_of_visited h

/-- Witness for C5 amended: the mutated node (identity 1) against a state
that has visited identity 1. -/
theorem C5_attribute_mutation_amended_witness :
    ImageDownloader.processElement ⟨[1], ["https://x/old.png"]⟩ c5ElemNew =
      ⟨⟨[1], ["https://x/old.png"]⟩, [], false⟩ :=
  C5_attribute_mutation_amended ⟨[1], ["https://x/old.png"]⟩ c5ElemNew (by decide)

/-- C10: in `processElement` the canvas snapshot and the computed-style
`url(...)` extraction live inside the loop over the element's candidate
sources, so when `getAllPossibleSources` returns the empty list the
element is only marked visited: no event is emitted and the canvas encode
is never attempted (`err = false` even for a canvas whose `toDataURL`
would throw). -/
theorem C10_empty_sources_no_processing (st : ScanState) (e : Elem)
    (hv : e.id ∉ st.processedElements)
    (hs : getAllPossibleSources e = []) :
    ImageDownloader.processElement st e =
      ⟨⟨e.id :: st.processedElements, st.processedSources⟩, [], false⟩ := by
  unfold ImageDownloader.processElement
  rw [if_neg hv, hs]
  rfl

/-- A tainted canvas with no qualifying attributes and no background
styles: `getAllPossibleSources` is empty, so its encode is never reached. -/
def c10Canvas : Elem :=
  ⟨9, "CANVAS", [], "", "none", "none", "none", "none", Except.error ()⟩

/-- Witness for C10: processing the source-less tainted canvas marks it
visited, emits nothing and does not throw. -/
theorem C10_empty_sources_no_processing_witness :
    ImageDownloader.processElement ⟨[], []⟩ c10Canvas = ⟨⟨[9], []⟩, [], false⟩ :=
  C10_empty_sources_no_processing ⟨[], []⟩ c10Canvas (by decide) (by decide)

/-- C1: within one scan epoch (a `scanAllImages` run plus the incremental
`processElement` calls tied to the same ledger), if two distinct elements
expose the same source string, exactly one `discovered` event is produced
for that source; re-encountering an already-emitted source is a no-op.
Stated for epochs with distinct node identities and no throwing canvas (an
uncaught throw aborts the scan — see C2). -/
theorem C1_dedup_within_scan (dom : Dom) (incr : List Elem) (e1 e2 : Elem) (s : String)
    (hN : ((allScanElems dom incr).map Elem.id).Nodup)
    (hsafe : ∀ x ∈ allScanElems dom incr, canThrow x = false)
    (h1 : e1 ∈ dom.elements ++ incr) (h2 : e2 ∈ dom.elements ++ incr)
    (hne : e1.id ≠ e2.id)
    (hs1 : s ∈ getAllPossibleSources e1) (hs2 : s ∈ getAllPossibleSources e2) :
    countDisc s (ImageDownloader.scanThenIncr dom incr).evs = 1 := by
  obtain ⟨rest, hevs, hok⟩ := ImageDownloader.scanThenIncr_spec dom incr
  have hmem : s ∈ (ImageDownloader.scanThenIncr dom incr).st.processedSources :=
    ImageDownloader.scanThenIncr_mem dom incr e1 s h1 hN hsafe hs1
  have hset : s ∈ discList rest := by
    rw [hok.srcEq] at hmem
    simpa using hmem
  have hcount : countDisc s (ImageDownloader.scanThenIncr dom incr).evs
      = (discList rest).count s := by
    rw [countDisc, hevs]
    rfl
  rw [hcount]
  exact freshChain_count_one hok.fresh hset

/-- First of two distinct img elements exposing the same source. -/
def c1ElemA : Elem :=
  ⟨1, "IMG", [⟨"src", "https://x/a.png"⟩], "", "none", "none", "none", "none",
    Except.ok ""⟩

/-- Second of two distinct img elements exposing the same source. -/
def c1ElemB : Elem :=
  ⟨2, "IMG", [⟨"src", "https://x/a.png"⟩], "", "none", "none", "none", "none",
    Except.ok ""⟩

/-- A document holding the two same-source elements. -/
def c1Dom : Dom := ⟨[c1ElemA, c1ElemB], [], [], []⟩

/-- Witness for C1: two distinct img tags pointing at the same URL yield
exactly one discovered event for it. -/
theorem C1_dedup_within_scan_witness :
    countDisc "https://x/a.png" (ImageDownloader.scanThenIncr c1Dom []).evs = 1 :=
  C1_dedup_within_scan c1Dom [] c1ElemA c1ElemB "https://x/a.png"
    (by decide) (by decide) (by decide) (by decide) (by decide) (by decide) (by decide)

/-- C6: after any state of the current epoch's ledger, feeding a new image
element (not yet visited, non-canvas) whose extracted sources include a
previously unseen source through the incremental path emits exactly one
`discovered` event for that source, and re-inserting (moving) the very
same unchanged node — identity-keyed in the visited set — is a complete
no-op. -/
theorem C6_incremental_consistency (st : ScanState) (e : Elem) (s : String)
    (hv : e.id ∉ st.processedElements)
    (hnew : s ∉ st.processedSources)
    (hcanvas : e.tagName ≠ "CANVAS")
    (hs : s ∈ getAllPossibleSources e) :
    countDisc s (ImageDownloader.processElement st e).evs = 1 ∧
    ImageDownloader.processElement (ImageDownloader.processElement st e).st e =
      ⟨(ImageDownloader.processElement st e).st, [], false⟩ := by
  have hsafe : canThrow e = false := by simp [canThrow, hcanvas]
  have hok := ImageDownloader.processElement_ok st e
  have hmem := ImageDownloader.processElement_mem hv hsafe hs
  constructor
  · have hd : s ∈ discList (ImageDownloader.processElement st e).evs := by
      rw [hok.srcEq] at hmem
      rcases List.mem_append.mp hmem with h' | h'
      · simpa using h'
      · exact absurd h' hnew
    exact freshChain_count_one hok.fresh hd
  · refine ImageDownloader.processElement_of_visited ?_
    rw [ImageDownloader.processElement_pe_of_new hv]
    exact List.mem_cons_self _ _

/-- A freshly inserted img element with a previously unseen source. -/
def c6Img : Elem :=
  ⟨3, "IMG", [⟨"src", "https://x/a.png"⟩], "", "none", "none", "none", "none",
    Except.ok ""⟩

/-- Witness for C6 at a concrete inserted element and ledger. -/
theorem C6_incremental_consistency_witness :
    countDisc "https://x/a.png"
        (ImageDownloader.processElement ⟨[1], ["https://x/other.png"]⟩ c6Img).evs = 1 ∧
    ImageDownloader.processElement
        (ImageDownloader.processElement ⟨[1], ["https://x/other.png"]⟩ c6Img).st c6Img =
      ⟨(ImageDownloader.processElement ⟨[1], ["https://x/other.png"]⟩ c6Img).st,
        [], false⟩ :=
  C6_incremental_consistency ⟨[1], ["https://x/other.png"]⟩ c6Img "https://x/a.png"
    (by decide) (by decide) (by decide) (by decide)

/-! ## Lemmas: prefix / takeWhile decompositions -/

theorem stripPrefixCL_eq_some :
    ∀ (p s r : List Char), stripPrefixCL p s = some r ↔ s = p ++ r := by
  intro p
  induction p with
  | nil =>
    intro s r
    simp [stripPrefixCL, eq_comm]
  | cons c cs ih =>
    intro s r
    cases s with
    | nil => simp [stripPrefixCL]
    | cons a as =>
      simp only [stripPrefixCL]
      split
      · rename_i h
        subst h
        rw [ih]
        simp
      · rename_i h
        simp only [List.cons_append, List.cons.injEq]
        constructor
        · intro hc
          exact absurd hc (by simp)
        · rintro ⟨h1, _⟩
          exact absurd h1 h

theorem stripPrefixCL_self (p r : List Char) : stripPrefixCL p (p ++ r) = some r :=
  (stripPrefixCL_eq_some p (p ++ r) r).mpr rfl

theorem takeWhile_all_append (p : Char → Bool) :
    ∀ (l : List Char) (c : Char) (t : List Char), l.all p = true → p c = false →
      (l ++ c :: t).takeWhile p = l ∧ (l ++ c :: t).dropWhile p = c :: t := by
  intro l
  induction l with
  | nil =>
    intro c t _ hc
    simp [List.takeWhile, List.dropWhile, hc]
  | cons a as ih =>
    intro c t hall hc
    have ha : p a = true := by
      simp only [List.all_cons, Bool.and_eq_true] at hall
      exact hall.1
    have has : as.all p = true := by
      simp only [List.all_cons, Bool.and_eq_true] at hall
      exact hall.2
    obtain ⟨h1, h2⟩ := ih c t has hc
    simp [List.takeWhile, List.dropWhile, ha, h1, h2]

theorem all_takeWhile_self (p : Char → Bool) :
    ∀ l : List Char, (l.takeWhile p).all p = true := by
  intro l
  induction l with
  | nil => rfl
  | cons a as ih =>
    by_cases h : p a = true
    · simp [List.takeWhile, h, ih]
    · simp only [Bool.not_eq_true] at h
      simp [List.takeWhile, h]

/-- C7: `isBase64Image` returns true exactly for strings of the shape
`data:image/<subtype>;base64,<body>` with a non-empty subtype over the
MIME-subtype character class and a non-empty body of valid base64
characters; in particular the claim's three test strings classify as
stated, and a string that starts with `data:image` but fails the full-body
check (here an invalid body character) is rejected. -/
theorem C7_base64_strict_validation :
    (∀ s : String,
      ImageUtils.isBase64Image s = true ↔
        ∃ sub body : List Char,
          s.data = "data:image/".data ++ (sub ++ (";base64,".data ++ body)) ∧
          sub ≠ [] ∧ sub.all subtypeChar = true ∧
          body ≠ [] ∧ body.all b64Char = true) ∧
    ImageUtils.isBase64Image "data:image/png;base64,iVBORw0KGgo=" = true ∧
    ImageUtils.isBase64Image "data:image/png;base64," = false ∧
    ImageUtils.isBase64Image "data:image/png,notbase64" = false ∧
    ImageUtils.isBase64Image "data:image/png;base64,???" = false := by
  refine ⟨?_, by decide, by decide, by decide, by decide⟩
  intro s
  unfold ImageUtils.isBase64Image isBase64ImageCore
  constructor
  · intro h
    revert h
    split
    · intro h
      exact absurd h (by simp)
    · rename_i rest hstrip1
      split
      · intro h
        exact absurd h (by simp)
      · rename_i body hstrip2
        intro h
        simp only [Bool.and_eq_true, Bool.not_eq_true'] at h
        obtain ⟨⟨hsub, hbody⟩, hall⟩ := h
        have hd1 : s.data = "data:image/".data ++ rest :=
          (stripPrefixCL_eq_some _ _ _).mp hstrip1
        have hd2 : List.dropWhile subtypeChar rest = ";base64,".data ++ body :=
          (stripPrefixCL_eq_some _ _ _).mp hstrip2
        have hd3 : rest = rest.takeWhile subtypeChar ++ (";base64,".data ++ body) := by
          rw [← hd2, List.takeWhile_append_dropWhile]
        refine ⟨rest.takeWhile subtypeChar, body, ?_, ?_, all_takeWhile_self _ rest, ?_, hall⟩
        · rw [hd1]
          exact congrArg (fun l => "data:image/".data ++ l) hd3
        · intro hc
          rw [hc] at hsub
          exact absurd hsub (by simp)
        · intro hc
          rw [hc] at hbody
          exact absurd hbody (by simp)
  · rintro ⟨sub, body, hdecomp, hsubne, hsuball, hbodyne, hbodyall⟩
    have hsemi : subtypeChar ';' = false := by decide
    have hsplit : (sub ++ (";base64,".data ++ body)).takeWhile subtypeChar = sub ∧
        (sub ++ (";base64,".data ++ body)).dropWhile subtypeChar = ";base64,".data ++ body := by
      have := takeWhile_all_append subtypeChar sub ';' ("base64,".data ++ body) hsuball hsemi
      simpa using this
    rw [hdecomp, stripPrefixCL_self]
    dsimp only
    rw [hsplit.2, stripPrefixCL_self]
    dsimp only
    rw [hsplit.1]
    simp only [Bool.and_eq_true, Bool.not_eq_true']
    refine ⟨⟨?_, ?_⟩, hbodyall⟩
    · cases sub with
      | nil => exact absurd rfl hsubne
      | cons a as => rfl
    · cases body with
      | nil => exact absurd rfl hbodyne
      | cons a as => rfl

/-! ## Lemmas: the findBase64Images style regex is self-defeating -/

theorem stripPrefixCL_append (p q : List Char) :
    ∀ s : List Char, stripPrefixCL (p ++ q) s =
      (stripPrefixCL p s).bind (stripPrefixCL q) := by
  induction p with
  | nil => intro s; simp [stripPrefixCL]
  | cons c cs ih =>
    intro s
    cases s with
    | nil => simp [stripPrefixCL]
    | cons a as =>
      simp only [List.cons_append, stripPrefixCL]
      split
      · exact ih as
      · simp

theorem bgB64At_shape (s cap : List Char) (h : bgB64At s = some cap) :
    ∃ t, cap = "data:image".data ++ '\n' :: t := by
  unfold bgB64At at h
  dsimp only at h
  repeat' split at h
  all_goals
    first
      | exact ⟨_, ((Option.some.injEq _ _).mp h).symm⟩
      | exact absurd h (by simp)

theorem bgBase64Scan_shape :
    ∀ (fuel : Nat) (s cap : List Char), bgBase64Scan fuel s = some cap →
      ∃ t, cap = "data:image".data ++ '\n' :: t := by
  intro fuel
  induction fuel with
  | zero => intro s cap h; exact absurd h (by simp [bgBase64Scan])
  | succ n ih =>
    intro s cap h
    cases s with
    | nil => exact absurd h (by simp [bgBase64Scan])
    | cons c rest =>
      unfold bgBase64Scan at h
      revert h
      split
      · split
        · rename_i cap' hat
          intro h
          exact (Option.some.injEq _ _).mp h ▸ bgB64At_shape _ _ hat
        · intro h
          exact ih rest cap h
      · intro h
        exact ih rest cap h

theorem isBase64ImageCore_newline (t : List Char) :
    isBase64ImageCore ("data:image".data ++ '\n' :: t) = false := by
  unfold isBase64ImageCore
  have hpre : "data:image/".data = "data:image".data ++ ['/'] := by decide
  have : stripPrefixCL "data:image/".data ("data:image".data ++ '\n' :: t) = none := by
    rw [hpre, stripPrefixCL_append, stripPrefixCL_self]
    simp [stripPrefixCL]
  rw [this]

/-- Any capture the `findBase64Images` style regex can produce starts with
`data:image` followed by a literal newline, and therefore always fails the
`isBase64Image` check that immediately follows it in the source: the
style-text path of `findBase64Images` is dead code. -/
theorem bgBase64Match_capture_invalid (s cap : String)
    (h : bgBase64Match s = some cap) : ImageUtils.isBase64Image cap = false := by
  unfold bgBase64Match at h
  rcases Option.map_eq_some'.mp h with ⟨capl, hscan, hmk⟩
  obtain ⟨t, ht⟩ := bgBase64Scan_shape _ _ _ hscan
  subst ht
  rw [← hmk]
  show isBase64ImageCore (String.mk ("data:image".data ++ '\n' :: t)).data = false
  exact isBase64ImageCore_newline t

/-- An element whose computed background-image carries a valid base64
payload (and nothing else qualifying). -/
def c8Elem : Elem :=
  ⟨5, "DIV", [], "", "url(\"data:image/png;base64,iVBORw0KGgo=\")",
    "none", "none", "none", Except.ok ""⟩

/-- C8: the claim says a strict-check-passing base64 payload in the
computed or inline background-image style is returned by
`findBase64Images`.  On the code this fails: the style-path regex
`/url\("?(data:image\n[^"]+)"?\)/` demands a literal newline after
`data:image` (a typo for the `/` of a real data URI), so it never matches
a real CSS value — and any capture it could produce would itself fail the
`isBase64Image` guard on the next line.  At the failing input (a valid
payload in the computed background-image), `findBase64Images` returns
nothing. -/
theorem C8_style_base64_never_extracted :
    ImageUtils.isBase64Image "data:image/png;base64,iVBORw0KGgo=" = true ∧
    ImageDownloader.findBase64Images c8Elem = [] :=
  ⟨by decide, by decide⟩

/-! ## Lemmas: generateFileName -/

theorem string_data_append (s t : String) : (s ++ t).data = s.data ++ t.data := rfl

theorem isPrefixOf_append_self :
    ∀ p r : List Char, p.isPrefixOf (p ++ r) = true := by
  intro p
  induction p with
  | nil => intro r; simp [List.isPrefixOf]
  | cons c cs ih => intro r; simp [List.isPrefixOf, ih]

theorem synthName_ne_noext (now : Nat) (ext : String) : synthName now ext ≠ "noext" := by
  intro h
  have hd := congrArg (fun s => s.data.head?) h
  simp only [synthName, string_data_append] at hd
  simp at hd

theorem generateFileName_base64 (now : Nat) (sub body : List Char)
    (hne : sub ≠ []) (hall : sub.all subtypeChar = true) :
    ImageUtils.generateFileName now
        (String.mk ("data:image/".data ++ (sub ++ (";base64,".data ++ body)))) =
      synthName now (String.mk sub) := by
  have hb : (";base64,".data : List Char) ++ body = ';' :: ("base64,".data ++ body) := rfl
  have hdata : (String.mk ("data:image/".data ++ (sub ++ (";base64,".data ++ body)))).data
      = "data:image/".data ++ (sub ++ (";base64,".data ++ body)) := rfl
  have hstart : jsStartsWith
      (String.mk ("data:image/".data ++ (sub ++ (";base64,".data ++ body))))
      "data:image" = true := by
    unfold jsStartsWith
    rw [hdata]
    rw [show ("data:image/".data : List Char) = "data:image".data ++ ['/'] from rfl]
    rw [List.append_assoc]
    exact isPrefixOf_append_self _ _
  have hsplit := takeWhile_all_append subtypeChar sub ';' ("base64,".data ++ body)
    hall (by decide)
  have hmatch : dataExtMatch
      (String.mk ("data:image/".data ++ (sub ++ (";base64,".data ++ body)))).data
      = some sub := by
    rw [hdata]
    unfold dataExtMatch
    rw [stripPrefixCL_self]
    dsimp only
    rw [hb, hsplit.1, hsplit.2]
    rw [← hb, stripPrefixCL_self]
    rw [if_neg (by cases sub with | nil => exact absurd rfl hne | cons a as => simp)]
    rw [if_pos (by simp)]
  unfold ImageUtils.generateFileName
  rw [if_pos hstart, hmatch]

/-- C9 counterexample: the claim says that for `data:` URIs the result is
`image_<id>.<ext-from-declared-type>`.  On the code this holds only for
the base64 form `data:image/<subtype>;base64,...`: for the (non-base64)
data URI `data:image/gif,xyz` the declared type is `gif` but the prefix
regex fails to match, so the code falls back to the default `png`
extension. -/
theorem C9_filename_counterexample :
    ImageUtils.generateFileName 0 "data:image/gif,xyz" = "image_0.png" ∧
    "image_0.png" ≠ "image_0.gif" :=
  ⟨by decide, by decide⟩

/-- C9 amended: with the clock fixed, `generateFileName` keeps
`photo.JPG` (recognized image extension, case-insensitive), synthesizes
`image_<id>.png` for `noext` (not `"noext"` verbatim), and produces
`image_<id>.<declared subtype>` for data URIs of the base64 form
`data:image/<subtype>;base64,...` — any other data URI falls back to the
default `png` extension (see the counterexample). -/
theorem C9_filename_synthesis_amended :
    (∀ now : Nat,
      ImageUtils.generateFileName now "https://site.com/path/photo.JPG" = "photo.JPG") ∧
    (∀ now : Nat,
      ImageUtils.generateFileName now "https://site.com/path/noext" = synthName now "png" ∧
      synthName now "png" ≠ "noext") ∧
    (∀ (now : Nat) (sub body : List Char), sub ≠ [] → sub.all subtypeChar = true →
      ImageUtils.generateFileName now
          (String.mk ("data:image/".data ++ (sub ++ (";base64,".data ++ body)))) =
        synthName now (String.mk sub)) := by
  refine ⟨fun now => rfl, fun now => ⟨rfl, synthName_ne_noext now "png"⟩, ?_⟩
  intro now sub body hne hall
  exact generateFileName_base64 now sub body hne hall

/-- Witness for C9 amended at the concrete data URI
`data:image/png;base64,AAAA` and clock value 5. -/
theorem C9_filename_synthesis_amended_witness :
    ImageUtils.generateFileName 5 "data:image/png;base64,AAAA" = synthName 5 "png" := by
  have h := C9_filename_synthesis_amended.2.2 5 "png".data "AAAA".data
    (by decide) (by decide)
  have e1 : String.mk ("data:image/".data ++ ("png".data ++ (";base64,".data ++ "AAAA".data)))
      = "data:image/png;base64,AAAA" := by decide
  have e2 : String.mk "png".data = "png" := rfl
  rw [e1, e2] at h
  exact h

/-- Witness for C3 amended at the concrete counterexample schedule. -/
theorem C3_cancellation_amended_witness :
    CheckFreshT [] (runTagged ⟨[], []⟩ c3Schedule).2 :=
  C3_cancellation_amended c3Schedule

/-- Witness for C4 at a concrete document and two distinct states. -/
theorem C4_full_scan_idempotent_witness :
    ImageDownloader.scanAllImages c1Dom ⟨[], []⟩ =
      ImageDownloader.scanAllImages c1Dom ⟨[7], ["https://x/stale.png"]⟩ :=
  (C4_full_scan_idempotent c1Dom ⟨[], []⟩ ⟨[7], ["https://x/stale.png"]⟩).1

/-- Witness for C7: the characterization applied at a concrete string. -/
theorem C7_base64_strict_validation_witness :
    ImageUtils.isBase64Image "data:image/png;base64,AAAA" = true :=
  (C7_base64_strict_validation.1 "data:image/png;base64,AAAA").mpr
    ⟨"png".data, "AAAA".data, by decide, by decide, by decide, by decide, by decide⟩
